import Mathlib

/-!
Verification of `video_pillar_crop.py` (pillar-bar detection and crop computation).

The Python source is shallowly embedded below:
* `column_blackness`  — per-column mean brightness and blackness flags of one frame;
* `analyze_frames`    — per-column black counts across frames and the final decision;
* `find_pillars`      — left/right pillar widths from the final boolean column vector;
* `to_norm`           — pixel and normalized crop rectangle.

Python machine details are modelled as follows: pixel brightnesses are naturals
(uint8 range is irrelevant to the claims), exact column means are rationals,
`math.ceil` on a float is `Int.ceil` on the rational, and Python exceptions become
an explicit `Except` error channel whose constructors are named after the builtin
exception classes the script actually raises.  NumPy's mean of an empty axis is
NaN (with a warning, not an error); a NaN mean is modelled as `Option.none`, and
the NumPy comparison `NaN <= threshold`, which is `False`, as a `false` flag.
-/

namespace VideoPillarCrop

/-- A raster frame: `px r c` is the brightness of the pixel in row `r`, column `c`.
`np.array(img)` of a PIL "L" image of size (width, height) has shape (height, width). -/
structure Frame where
  width : ℕ
  height : ℕ
  px : ℕ → ℕ → ℕ

/-- Exceptions the Python script can raise, named after the builtin classes:
`TypeError` (raised by `counts >= required` when `counts` is still `None`),
`RuntimeError` (raised explicitly with a message on a frame-width mismatch),
`ZeroDivisionError` (raised by `x / W` or `y / H` when the divisor is zero). -/
inductive PyErr where
  | typeError
  | runtimeError (msg : String)
  | zeroDivisionError
deriving DecidableEq, Repr

/-- Exact mean brightness of column `i` of frame `f`: the arithmetic mean of the
`height` row values.  Only meaningful when the frame has at least one row. -/
def meanB (f : Frame) (i : ℕ) : ℚ :=
  (∑ r in Finset.range f.height, (f.px r i : ℚ)) / (f.height : ℚ)

/-- `arr.mean(axis=0)` entry for column `i`: the exact column mean, or `none` when
the frame has zero rows (NumPy produces NaN there, with a RuntimeWarning). -/
def colMean (f : Frame) (i : ℕ) : Option ℚ :=
  if f.height = 0 then none else some (meanB f i)

/-- `column_blackness(img, threshold)`: `means = arr.mean(axis=0)` and the flag
vector `means <= threshold`.  A NaN mean (zero-height frame) compares `False`. -/
def column_blackness (f : Frame) (threshold : ℚ) : List Bool × List (Option ℚ) :=
  ((List.range f.width).map fun i =>
      match colMean f i with
      | none => false
      | some m => decide (m ≤ threshold),
   (List.range f.width).map fun i => colMean f i)

/-- `required = math.ceil(frame_pct * n)`. -/
def requiredCount (frame_pct : ℚ) (n : ℕ) : ℤ :=
  ⌈frame_pct * (n : ℚ)⌉

/-- One entry of `black_cols = counts >= required`. -/
def decideBlack (frame_pct : ℚ) (n : ℕ) (c : ℕ) : Bool :=
  decide (requiredCount frame_pct n ≤ (c : ℤ))

/-- The structured result returned by `analyze_frames`. -/
structure AnalysisResult where
  n_frames : ℕ
  width : ℕ
  height : ℕ
  counts : List ℕ
  black_cols : List Bool
  col_means : List (List (Option ℚ))
deriving DecidableEq, Repr

/-- The `for p in frames` loop of `analyze_frames` after the first frame has
initialized `counts`, `width` and `height`: each further frame is checked for
width agreement (`raise RuntimeError(...)` on mismatch), its flags are added
elementwise into `counts`, its means appended to the store, and `n` incremented. -/
def analyzeGo (threshold : ℚ) (width : ℕ) :
    List Frame → List ℕ → List (List (Option ℚ)) → ℕ →
    Except PyErr (List ℕ × List (List (Option ℚ)) × ℕ)
  | [], counts, store, n => .ok (counts, store, n)
  | f :: fs, counts, store, n =>
      let bwm := column_blackness f threshold
      if f.width ≠ width then
        .error (.runtimeError "Extracted frame widths vary; unexpected.")
      else
        analyzeGo threshold width fs
          (List.zipWith (fun c b => c + (if b then 1 else 0)) counts bwm.1)
          (store ++ [bwm.2]) (n + 1)

/-- `analyze_frames(frames, threshold, frame_pct)`.  On an empty sequence the loop
never runs, `counts` is still `None`, and `black_cols = counts >= required` raises
a `TypeError` (there is no dedicated empty-input error in the script).  Otherwise
the first frame initializes `counts = bw.astype(int)`, `width` and `height`, the
remaining frames are folded by `analyzeGo`, and the final decision vector is
`counts >= ceil(frame_pct * n)`. -/
def analyze_frames (frames : List Frame) (threshold frame_pct : ℚ) :
    Except PyErr AnalysisResult :=
  match frames with
  | [] => .error .typeError
  | f0 :: rest =>
      let bwm0 := column_blackness f0 threshold
      match analyzeGo threshold f0.width rest
          (bwm0.1.map fun b => if b then 1 else 0) [bwm0.2] 1 with
      | .error e => .error e
      | .ok (counts, store, n) =>
          .ok ⟨n, f0.width, f0.height, counts,
               counts.map (decideBlack frame_pct n), store⟩

/-- `find_pillars(black_cols_bool)`: `left` counts the `while left < W and
black_cols_bool[left]` loop, i.e. the longest all-true prefix; `right` counts the
`while right < W and black_cols_bool[W-1-right]` loop, i.e. the longest all-true
prefix of the reversed list; each is then capped by `min(_, W // 2)`. -/
def find_pillars (black_cols_bool : List Bool) : ℕ × ℕ :=
  let W := black_cols_bool.length
  let left := (black_cols_bool.takeWhile (fun b => b)).length
  let right := (black_cols_bool.reverse.takeWhile (fun b => b)).length
  (min left (W / 2), min right (W / 2))

/-- Round a rational to the nearest integer, ties to even — the tie rule of
Python's `round` on floats (banker's rounding), taken here on exact rationals. -/
def roundHalfEven (q : ℚ) : ℤ :=
  if q - ⌊q⌋ < 1/2 then ⌊q⌋
  else if 1/2 < q - ⌊q⌋ then ⌊q⌋ + 1
  else if 2 ∣ ⌊q⌋ then ⌊q⌋ else ⌊q⌋ + 1

/-- `round(q, 6)`: round to 6 decimal places. -/
def round6 (q : ℚ) : ℚ :=
  (roundHalfEven (q * 1000000) : ℚ) / 1000000

/-- The crop dictionary returned by `to_norm`: pixel fields and normalized fields. -/
structure CropRect where
  x : ℤ
  y : ℤ
  w : ℤ
  h : ℤ
  nx : ℚ
  ny : ℚ
  nw : ℚ
  nh : ℚ
deriving DecidableEq, Repr

/-- `to_norm(left, right, W, H)`: `x = left`, `y = 0`, `w = max(0, W - left - right)`,
`h = H`, and each normalized field is the pixel field divided by its axis dimension,
rounded to 6 decimals.  Python has no explicit guard: with `W = 0` the expression
`round(x / W, 6)` raises `ZeroDivisionError`, and with `H = 0` so does
`round(y / H, 6)`; the guard below models exactly those raises. -/
def to_norm (left right W H : ℕ) : Except PyErr CropRect :=
  let x : ℤ := left
  let y : ℤ := 0
  let w : ℤ := max 0 ((W : ℤ) - left - right)
  let h : ℤ := H
  if W = 0 ∨ H = 0 then .error .zeroDivisionError
  else .ok ⟨x, y, w, h,
            round6 ((x : ℚ) / (W : ℚ)), round6 ((y : ℚ) / (H : ℚ)),
            round6 ((w : ℚ) / (W : ℚ)), round6 ((h : ℚ) / (H : ℚ))⟩

/-- The longest run of consecutive `true` columns starting at index 0 has length
exactly `l`: all columns before `l` are black and, unless the run spans the whole
vector, column `l` itself is not black. -/
def isMaxPrefixRun (bc : List Bool) (l : ℕ) : Prop :=
  l ≤ bc.length ∧ (∀ i, i < l → bc.getD i false = true) ∧
    (l < bc.length → bc.getD l false = false)

/-- The longest run of consecutive `true` columns ending at index `W-1` has length
exactly `r`; a maximal run ending at the last index is a maximal prefix run of the
reversed vector. -/
def isMaxSuffixRun (bc : List Bool) (r : ℕ) : Prop :=
  isMaxPrefixRun bc.reverse r

deriving instance DecidableEq for Except

/-! ### Helper lemmas about `find_pillars` -/

lemma takeWhile_length_le (bc : List Bool) :
    (bc.takeWhile (fun b => b)).length ≤ bc.length :=
  (List.takeWhile_sublist _).length_le

lemma find_pillars_left_le_half (bc : List Bool) :
    (find_pillars bc).1 ≤ bc.length / 2 := by
  simp only [find_pillars]
  exact min_le_right _ _

lemma find_pillars_right_le_half (bc : List Bool) :
    (find_pillars bc).2 ≤ bc.length / 2 := by
  simp only [find_pillars]
  exact min_le_right _ _

lemma find_pillars_sum_le (bc : List Bool) :
    (find_pillars bc).1 + (find_pillars bc).2 ≤ bc.length := by
  have h1 := find_pillars_left_le_half bc
  have h2 := find_pillars_right_le_half bc
  omega

lemma takeWhile_id_replicate_true (n : ℕ) :
    ((List.replicate n true).takeWhile (fun b => b)).length = n := by
  simp [List.takeWhile_replicate]

lemma find_pillars_all_black (W : ℕ) :
    find_pillars (List.replicate W true) = (W / 2, W / 2) := by
  simp only [find_pillars, List.reverse_replicate, List.length_replicate,
    takeWhile_id_replicate_true]
  rw [min_eq_right (Nat.div_le_self W 2)]

/-- The length of the all-true prefix taken by `takeWhile` is the maximal
edge-anchored run in the sense of `isMaxPrefixRun`. -/
lemma takeWhile_isMaxPrefixRun (bc : List Bool) :
    isMaxPrefixRun bc (bc.takeWhile (fun b => b)).length := by
  induction bc with
  | nil => exact ⟨Nat.le_refl 0, fun i hi => absurd hi (Nat.not_lt_zero i), fun h => absurd h (by simp)⟩
  | cons b bc ih =>
    obtain ⟨ih1, ih2, ih3⟩ := ih
    cases b with
    | false =>
      refine ⟨Nat.zero_le _, fun i hi => absurd hi (by simp), fun _ => rfl⟩
    | true =>
      refine ⟨by simpa using ih1, fun i hi => ?_, fun h => ?_⟩
      · cases i with
        | zero => rfl
        | succ j => exact ih2 j (by simpa using hi)
      · simpa using ih3 (by simpa using h)

lemma isMaxPrefixRun_unique {bc : List Bool} {l₁ l₂ : ℕ}
    (h₁ : isMaxPrefixRun bc l₁) (h₂ : isMaxPrefixRun bc l₂) : l₁ = l₂ := by
  obtain ⟨hle₁, hall₁, hstop₁⟩ := h₁
  obtain ⟨hle₂, hall₂, hstop₂⟩ := h₂
  rcases Nat.lt_trichotomy l₁ l₂ with h | h | h
  · have ht := hall₂ l₁ h
    have hf := hstop₁ (Nat.lt_of_lt_of_le h hle₂)
    rw [ht] at hf
    exact absurd hf (by simp)
  · exact h
  · have ht := hall₁ l₂ h
    have hf := hstop₂ (Nat.lt_of_lt_of_le h hle₁)
    rw [ht] at hf
    exact absurd hf (by simp)

/-- Anything behind a `false` barrier is invisible to the left scan. -/
lemma takeWhile_false_barrier (xs ys : List Bool) :
    (xs ++ false :: ys).takeWhile (fun b => b) = xs.takeWhile (fun b => b) := by
  induction xs with
  | nil => simp [List.takeWhile_cons]
  | cons x xs ih =>
    cases x with
    | false => simp [List.takeWhile_cons]
    | true => simpa [List.takeWhile_cons] using ih

lemma reverse_barrier_decomp (p m s : List Bool) :
    (p ++ false :: (m ++ false :: s)).reverse =
      s.reverse ++ false :: (m.reverse ++ false :: p.reverse) := by
  simp

lemma find_pillars_eq_of_runs {bc : List Bool} {l r : ℕ}
    (hl : isMaxPrefixRun bc l) (hr : isMaxSuffixRun bc r) :
    find_pillars bc = (min l (bc.length / 2), min r (bc.length / 2)) := by
  have h1 : (bc.takeWhile (fun b => b)).length = l :=
    isMaxPrefixRun_unique (takeWhile_isMaxPrefixRun bc) hl
  have h2 : (bc.reverse.takeWhile (fun b => b)).length = r :=
    isMaxPrefixRun_unique (takeWhile_isMaxPrefixRun bc.reverse) hr
  simp only [find_pillars, h1, h2]

lemma find_pillars_interior_irrelevant {m₁ m₂ : List Bool} (p s : List Bool)
    (hm : m₁.length = m₂.length) :
    find_pillars (p ++ false :: (m₁ ++ false :: s)) =
      find_pillars (p ++ false :: (m₂ ++ false :: s)) := by
  have hlen : (p ++ false :: (m₁ ++ false :: s)).length =
      (p ++ false :: (m₂ ++ false :: s)).length := by
    simp [hm]
  have hleft : ((p ++ false :: (m₁ ++ false :: s)).takeWhile (fun b => b)).length =
      ((p ++ false :: (m₂ ++ false :: s)).takeWhile (fun b => b)).length := by
    rw [takeWhile_false_barrier, takeWhile_false_barrier]
  have hright : ((p ++ false :: (m₁ ++ false :: s)).reverse.takeWhile (fun b => b)).length =
      ((p ++ false :: (m₂ ++ false :: s)).reverse.takeWhile (fun b => b)).length := by
    rw [reverse_barrier_decomp, reverse_barrier_decomp,
      takeWhile_false_barrier, takeWhile_false_barrier]
  simp only [find_pillars, hlen, hleft, hright]

/-- C1: for every boolean column vector, `find_pillars` returns widths bounded by
`⌊W/2⌋` each, whose sum is at most `W` (so the crop width `W - left - right` is
non-negative; widths are naturals, hence non-negative); and on an all-black
vector it returns exactly `(⌊W/2⌋, ⌊W/2⌋)`. -/
theorem find_pillars_cap_invariant (bc : List Bool) (W : ℕ) :
    ((find_pillars bc).1 ≤ bc.length / 2 ∧ (find_pillars bc).2 ≤ bc.length / 2 ∧
      (find_pillars bc).1 + (find_pillars bc).2 ≤ bc.length) ∧
    find_pillars (List.replicate W true) = (W / 2, W / 2) :=
  ⟨⟨find_pillars_left_le_half bc, find_pillars_right_le_half bc,
    find_pillars_sum_le bc⟩, find_pillars_all_black W⟩

/-- C2: the raw left pillar width is the length of the maximal black run starting
at index 0 and the raw right pillar width is the length of the maximal black run
ending at the last index (each capped at `⌊W/2⌋`); a black run shielded from both
edges by a non-black column contributes nothing to either width; and the empty
vector yields `(0, 0)`. -/
theorem find_pillars_edge_runs (bc : List Bool) (l r : ℕ) (p m₁ m₂ s : List Bool) :
    (isMaxPrefixRun bc l → isMaxSuffixRun bc r →
      find_pillars bc = (min l (bc.length / 2), min r (bc.length / 2))) ∧
    (m₁.length = m₂.length →
      find_pillars (p ++ false :: (m₁ ++ false :: s)) =
        find_pillars (p ++ false :: (m₂ ++ false :: s))) ∧
    find_pillars [] = (0, 0) :=
  ⟨fun hl hr => find_pillars_eq_of_runs hl hr,
   fun hm => find_pillars_interior_irrelevant p s hm,
   rfl⟩

/-- Witness for C2 at `bc = [true, false, true]` (maximal runs of length 1 at each
edge) and interior lists `[true]` vs `[false]` between two barriers. -/
theorem find_pillars_edge_runs_witness :
    find_pillars [true, false, true] = (min 1 (3 / 2), min 1 (3 / 2)) ∧
    find_pillars ([true] ++ false :: ([true] ++ false :: [true])) =
      find_pillars ([true] ++ false :: ([false] ++ false :: [true])) := by
  have h := find_pillars_edge_runs [true, false, true] 1 1 [true] [true] [false] [true]
  refine ⟨?_, h.2.1 (by decide)⟩
  have h1 : isMaxPrefixRun [true, false, true] 1 := by
    refine ⟨by decide, fun i hi => ?_, fun _ => by decide⟩
    interval_cases i
    · decide
  have h2 : isMaxSuffixRun [true, false, true] 1 := by
    refine ⟨by decide, fun i hi => ?_, fun _ => by decide⟩
    interval_cases i
    · decide
  simpa using h.1 h1 h2

/-! ### Helper lemmas about rounding and `to_norm` -/

lemma roundHalfEven_intCast (z : ℤ) : roundHalfEven (z : ℚ) = z := by
  simp [roundHalfEven, Int.floor_intCast]

lemma roundHalfEven_zero : roundHalfEven 0 = 0 := by
  have h := roundHalfEven_intCast 0
  norm_num at h
  exact h

lemma round6_zero : round6 0 = 0 := by
  rw [round6, zero_mul, roundHalfEven_zero]
  norm_num

lemma round6_one : round6 1 = 1 := by
  have h : (1 : ℚ) * 1000000 = ((1000000 : ℤ) : ℚ) := by norm_num
  rw [round6, h, roundHalfEven_intCast]
  norm_num

/-- C4: for positive frame dimensions `to_norm` returns the rectangle
`x = leftPx`, `y = 0`, `w = max 0 (W - leftPx - rightPx)`, `h = H`, with each
normalized field the corresponding pixel field divided by its axis dimension and
rounded to 6 decimal places (and in particular `ny = 0`, `nh = 1`). -/
theorem to_norm_fields (left right W H : ℕ) (hW : 0 < W) (hH : 0 < H) :
    ∃ c, to_norm left right W H = .ok c ∧
      c.x = (left : ℤ) ∧ c.y = 0 ∧ c.w = max 0 ((W : ℤ) - left - right) ∧ c.h = (H : ℤ) ∧
      c.nx = round6 ((c.x : ℚ) / (W : ℚ)) ∧ c.ny = round6 ((c.y : ℚ) / (H : ℚ)) ∧
      c.nw = round6 ((c.w : ℚ) / (W : ℚ)) ∧ c.nh = round6 ((c.h : ℚ) / (H : ℚ)) ∧
      c.ny = 0 ∧ c.nh = 1 := by
  have hcond : ¬(W = 0 ∨ H = 0) := by omega
  refine ⟨_, by rw [to_norm, if_neg hcond], rfl, rfl, rfl, rfl, rfl, ?_, rfl, ?_, ?_, ?_⟩
  · norm_num
  · norm_num
  · norm_num [round6_zero]
  · have hH0 : ((H : ℤ) : ℚ) / ((H : ℕ) : ℚ) = 1 := by
      push_cast
      exact div_self (by positivity)
    rw [hH0, round6_one]

/-- Witness for C4 at `left = 1`, `right = 0`, `W = 2`, `H = 2`. -/
theorem to_norm_fields_witness :
    ∃ c, to_norm 1 0 2 2 = .ok c ∧
      c.x = ((1 : ℕ) : ℤ) ∧ c.y = 0 ∧ c.w = max 0 (((2 : ℕ) : ℤ) - (1 : ℕ) - (0 : ℕ)) ∧
      c.h = ((2 : ℕ) : ℤ) ∧
      c.nx = round6 ((c.x : ℚ) / ((2 : ℕ) : ℚ)) ∧ c.ny = round6 ((c.y : ℚ) / ((2 : ℕ) : ℚ)) ∧
      c.nw = round6 ((c.w : ℚ) / ((2 : ℕ) : ℚ)) ∧ c.nh = round6 ((c.h : ℚ) / ((2 : ℕ) : ℚ)) ∧
      c.ny = 0 ∧ c.nh = 1 :=
  to_norm_fields 1 0 2 2 (by decide) (by decide)

/-- C8: `to_norm` fails, with the division-by-zero error, exactly when `W` or `H`
is zero; for positive `W` and `H` it returns a result. -/
theorem to_norm_error_iff (left right W H : ℕ) :
    (to_norm left right W H = .error .zeroDivisionError ↔ (W = 0 ∨ H = 0)) ∧
    ((∃ c, to_norm left right W H = .ok c) ↔ ¬(W = 0 ∨ H = 0)) := by
  by_cases h : W = 0 ∨ H = 0
  · rw [to_norm, if_pos h]
    simp [h]
  · rw [to_norm, if_neg h]
    simp [h]

/-- Witness for C8 at `W = 0` (failure) and `W = 9, H = 5` (success). -/
theorem to_norm_error_iff_witness :
    to_norm 3 4 0 5 = .error .zeroDivisionError ∧ ∃ c, to_norm 3 4 9 5 = .ok c :=
  ⟨(to_norm_error_iff 3 4 0 5).1.mpr (Or.inl rfl),
   (to_norm_error_iff 3 4 9 5).2.mpr (by omega)⟩

/-- C10: composing `find_pillars` with `to_norm` on a non-empty column vector and
positive height yields a crop rectangle inside the frame: `0 ≤ x`,
`x + w = W - rightPx ≤ W`, `y = 0` and `y + h = H`. -/
theorem pipeline_crop_in_frame (bc : List Bool) (H : ℕ)
    (hW : 1 ≤ bc.length) (hH : 1 ≤ H) :
    ∃ c, to_norm (find_pillars bc).1 (find_pillars bc).2 bc.length H = .ok c ∧
      0 ≤ c.x ∧ c.x + c.w = (bc.length : ℤ) - ((find_pillars bc).2 : ℤ) ∧
      c.x + c.w ≤ (bc.length : ℤ) ∧ c.y = 0 ∧ c.y + c.h = (H : ℤ) := by
  have hcond : ¬(bc.length = 0 ∨ H = 0) := by omega
  have hsum := find_pillars_sum_le bc
  refine ⟨_, by rw [to_norm, if_neg hcond], by positivity, ?_, ?_, rfl, by simp⟩
  · have : max 0 ((bc.length : ℤ) - (find_pillars bc).1 - (find_pillars bc).2) =
        (bc.length : ℤ) - (find_pillars bc).1 - (find_pillars bc).2 := by
      rw [max_eq_right]
      omega
    rw [this]
    push_cast
    ring
  · have h1 : (0 : ℤ) ≤ (find_pillars bc).2 := by positivity
    have h2 : max 0 ((bc.length : ℤ) - (find_pillars bc).1 - (find_pillars bc).2) ≤
        (bc.length : ℤ) - (find_pillars bc).1 := by
      rw [max_le_iff]
      refine ⟨by omega, by omega⟩
    dsimp only
    omega

/-- Witness for C10 at `bc = [true, false]`, `H = 1`. -/
theorem pipeline_crop_in_frame_witness :
    ∃ c, to_norm (find_pillars [true, false]).1 (find_pillars [true, false]).2
        [true, false].length 1 = .ok c ∧
      0 ≤ c.x ∧ c.x + c.w = (([true, false].length : ℕ) : ℤ) -
        ((find_pillars [true, false]).2 : ℤ) ∧
      c.x + c.w ≤ (([true, false].length : ℕ) : ℤ) ∧ c.y = 0 ∧ c.y + c.h = ((1 : ℕ) : ℤ) :=
  pipeline_crop_in_frame [true, false] 1 (by decide) (by decide)

/-! ### Helper lemmas about `column_blackness` and `analyze_frames` -/

lemma column_blackness_fst_length (f : Frame) (t : ℚ) :
    (column_blackness f t).1.length = f.width := by
  simp [column_blackness]

lemma column_blackness_flag (f : Frame) (t : ℚ) (i : ℕ)
    (hi : i < f.width) (hh : 0 < f.height) :
    (column_blackness f t).1[i]? = some (decide (meanB f i ≤ t)) := by
  simp [column_blackness, List.getElem?_range hi, colMean, Nat.pos_iff_ne_zero.mp hh]

lemma column_blackness_flag_getD (f : Frame) (t : ℚ) (i : ℕ)
    (hi : i < f.width) (hh : 0 < f.height) :
    (column_blackness f t).1.getD i false = decide (meanB f i ≤ t) := by
  simp [List.getD_eq_getElem?_getD, column_blackness_flag f t i hi hh]

lemma zipWith_count_getD (counts : List ℕ) (bw : List Bool) (i : ℕ)
    (h1 : i < counts.length) (h2 : i < bw.length) :
    (List.zipWith (fun c b => c + if b then 1 else 0) counts bw).getD i 0 =
      counts.getD i 0 + (if bw.getD i false then 1 else 0) := by
  simp [List.getD_eq_getElem?_getD, List.getElem?_zipWith,
    List.getElem?_eq_getElem h1, List.getElem?_eq_getElem h2]

/-- The loop of `analyze_frames` over the frames after the first: when every
remaining frame has the expected width, it succeeds, extends the means store in
order, counts all frames, and accumulates each column's flag count. -/
lemma analyzeGo_ok (t : ℚ) (W : ℕ) (fs : List Frame) :
    ∀ (counts : List ℕ) (store : List (List (Option ℚ))) (n : ℕ),
      (∀ f ∈ fs, f.width = W) → counts.length = W →
      ∃ counts' : List ℕ,
        analyzeGo t W fs counts store n =
          .ok (counts', store ++ fs.map (fun f => (column_blackness f t).2), n + fs.length) ∧
        counts'.length = W ∧
        ∀ i, i < W → counts'[i]? =
          some (counts.getD i 0 +
            fs.countP (fun f => (column_blackness f t).1.getD i false)) := by
  induction fs with
  | nil =>
    intro counts store n _ hlen
    refine ⟨counts, by simp [analyzeGo], hlen, fun i hi => ?_⟩
    have hi' : i < counts.length := by omega
    simp [List.getElem?_eq_getElem hi', List.getD_eq_getElem?_getD]
  | cons f fs ih =>
    intro counts store n hw hlen
    have hfw : f.width = W := hw f (List.mem_cons_self f fs)
    have hbwlen : (column_blackness f t).1.length = W := by
      rw [column_blackness_fst_length, hfw]
    have hlen1 :
        (List.zipWith (fun c b => c + if b then 1 else 0) counts
          (column_blackness f t).1).length = W := by
      simp [hlen, hbwlen]
    obtain ⟨counts', heq, hlen', hchar⟩ :=
      ih (List.zipWith (fun c b => c + if b then 1 else 0) counts (column_blackness f t).1)
        (store ++ [(column_blackness f t).2]) (n + 1)
        (fun g hg => hw g (List.mem_cons_of_mem f hg)) hlen1
    refine ⟨counts', ?_, hlen', fun i hi => ?_⟩
    · rw [analyzeGo, if_neg (by simp [hfw])]
      rw [heq]
      simp [Nat.add_assoc, Nat.add_comm, Nat.add_left_comm]
    · rw [hchar i hi,
        zipWith_count_getD counts (column_blackness f t).1 i (by omega) (by omega),
        List.countP_cons]
      congr 1
      omega

/-- The loop of `analyze_frames` raises the `RuntimeError` as soon as it reaches
a frame whose width differs from the first frame's, whatever comes after it. -/
lemma analyzeGo_mismatch (t : ℚ) (W : ℕ) (fs1 : List Frame) (g : Frame)
    (fs2 : List Frame) :
    ∀ (counts : List ℕ) (store : List (List (Option ℚ))) (n : ℕ),
      (∀ f ∈ fs1, f.width = W) → g.width ≠ W →
      analyzeGo t W (fs1 ++ g :: fs2) counts store n =
        .error (.runtimeError "Extracted frame widths vary; unexpected.") := by
  induction fs1 with
  | nil =>
    intro counts store n _ hg
    rw [List.nil_append, analyzeGo, if_pos (by simpa using hg)]
  | cons f fs1 ih =>
    intro counts store n hw hg
    have hfw : f.width = W := hw f (List.mem_cons_self f fs1)
    rw [List.cons_append, analyzeGo, if_neg (by simp [hfw])]
    exact ih _ _ _ (fun x hx => hw x (List.mem_cons_of_mem f hx)) hg

/-- C3: on a non-empty sequence of same-width frames (each with at least one
row), `analyze_frames` succeeds; each frame's column flag is true exactly when
that column's exact mean brightness is at most the threshold (inclusive); each
entry of `counts` is the number of frames whose flag at that column is true; and
the final decision at each column is `counts[i] >= ceil(frame_pct * N)`. -/
theorem analyze_frames_spec (fs : List Frame) (t p : ℚ) (W : ℕ)
    (hne : fs ≠ []) (hw : ∀ f ∈ fs, f.width = W) (hh : ∀ f ∈ fs, 0 < f.height) :
    ∃ r, analyze_frames fs t p = .ok r ∧ r.n_frames = fs.length ∧
      (∀ f ∈ fs, ∀ i, i < W →
        (column_blackness f t).1[i]? = some (decide (meanB f i ≤ t))) ∧
      (∀ i, i < W →
        r.counts[i]? = some (fs.countP (fun f => decide (meanB f i ≤ t))) ∧
        r.black_cols[i]? = some (decideBlack p fs.length
          (fs.countP (fun f => decide (meanB f i ≤ t))))) := by
  obtain ⟨f0, rest, rfl⟩ := List.exists_cons_of_ne_nil hne
  have hf0w : f0.width = W := hw f0 (List.mem_cons_self f0 rest)
  have hf0h : 0 < f0.height := hh f0 (List.mem_cons_self f0 rest)
  have hcounts0len :
      ((column_blackness f0 t).1.map fun b => if b then (1 : ℕ) else 0).length = W := by
    rw [List.length_map, column_blackness_fst_length, hf0w]
  obtain ⟨counts', heq, hlen', hchar⟩ :=
    analyzeGo_ok t W rest
      ((column_blackness f0 t).1.map fun b => if b then (1 : ℕ) else 0)
      [(column_blackness f0 t).2] 1
      (fun g hg => hw g (List.mem_cons_of_mem f0 hg)) hcounts0len
  have hn : 1 + rest.length = (f0 :: rest).length := by simp [Nat.add_comm]
  have hrun : analyze_frames (f0 :: rest) t p =
      .ok ⟨1 + rest.length, f0.width, f0.height, counts',
        counts'.map (decideBlack p (1 + rest.length)),
        [(column_blackness f0 t).2] ++ rest.map (fun f => (column_blackness f t).2)⟩ := by
    rw [analyze_frames, hf0w, heq]
  refine ⟨_, hrun, hn, fun f hf i hi => ?_, fun i hi => ?_⟩
  · have hfw : f.width = W := hw f hf
    exact column_blackness_flag f t i (by omega) (hh f hf)
  · have hccount : ∀ g ∈ rest, ((column_blackness g t).1.getD i false) =
        decide (meanB g i ≤ t) := by
      intro g hg
      have hgw : g.width = W := hw g (List.mem_cons_of_mem f0 hg)
      exact column_blackness_flag_getD g t i (by omega) (hh g (List.mem_cons_of_mem f0 hg))
    have hcountP : rest.countP (fun f => (column_blackness f t).1.getD i false) =
        rest.countP (fun f => decide (meanB f i ≤ t)) :=
      List.countP_congr (fun g hg => by rw [hccount g hg])
    have hcounts0 :
        ((column_blackness f0 t).1.map fun b => if b then (1 : ℕ) else 0).getD i 0 =
          if decide (meanB f0 i ≤ t) then 1 else 0 := by
      rw [List.getD_eq_getElem?_getD, List.getElem?_map,
        column_blackness_flag f0 t i (by omega) hf0h]
      simp
    have hcnt := hchar i hi
    rw [hcounts0, hcountP] at hcnt
    have hcount_eq : (if decide (meanB f0 i ≤ t) then (1 : ℕ) else 0) +
        rest.countP (fun f => decide (meanB f i ≤ t)) =
        (f0 :: rest).countP (fun f => decide (meanB f i ≤ t)) := by
      rw [List.countP_cons]
      omega
    constructor
    · rw [hcnt, hcount_eq]
    · rw [List.getElem?_map, hcnt, hcount_eq]
      simp [hn]

/-- Witness for C3: two frames of width 2 and height 1, the first all-dark, the
second with one bright column, at threshold 16 and frame fraction 9/10. -/
theorem analyze_frames_spec_witness :
    ∃ r, analyze_frames [⟨2, 1, fun _ _ => 0⟩, ⟨2, 1, fun _ c => if c = 0 then 0 else 200⟩]
        16 (9/10) = .ok r ∧
      r.n_frames = [⟨2, 1, fun _ _ => 0⟩,
        (⟨2, 1, fun _ c => if c = 0 then 0 else 200⟩ : Frame)].length ∧
      (∀ f ∈ [⟨2, 1, fun _ _ => 0⟩,
          (⟨2, 1, fun _ c => if c = 0 then 0 else 200⟩ : Frame)], ∀ i, i < 2 →
        (column_blackness f 16).1[i]? = some (decide (meanB f i ≤ 16))) ∧
      (∀ i, i < 2 →
        r.counts[i]? = some ([⟨2, 1, fun _ _ => 0⟩,
          (⟨2, 1, fun _ c => if c = 0 then 0 else 200⟩ : Frame)].countP
            (fun f => decide (meanB f i ≤ 16))) ∧
        r.black_cols[i]? = some (decideBlack (9/10) [⟨2, 1, fun _ _ => 0⟩,
          (⟨2, 1, fun _ c => if c = 0 then 0 else 200⟩ : Frame)].length
          ([⟨2, 1, fun _ _ => 0⟩,
            (⟨2, 1, fun _ c => if c = 0 then 0 else 200⟩ : Frame)].countP
              (fun f => decide (meanB f i ≤ 16))))) :=
  analyze_frames_spec _ 16 (9/10) 2 (by simp)
    (by
      intro f hf
      simp only [List.mem_cons, List.not_mem_nil, or_false] at hf
      rcases hf with h | h <;> subst h <;> rfl)
    (by
      intro f hf
      simp only [List.mem_cons, List.not_mem_nil, or_false] at hf
      rcases hf with h | h <;> subst h <;> decide)

/-- C5 (amended): on an empty frame sequence `analyze_frames` fails — with the
generic `TypeError` raised by the comparison `None >= required` — and no
`AnalysisResult` is produced.  The script defines no dedicated empty-input
error type. -/
theorem analyze_frames_empty (t p : ℚ) :
    analyze_frames [] t p = .error .typeError :=
  rfl

/-- Counterexample to C5 as stated: at the concrete empty input the failure the
code produces is `PyErr.typeError`, the embedding of Python's builtin generic
`TypeError` (raised accidentally by `counts >= required` with `counts = None`);
the script raises no dedicated, distinguishable `NoFramesError` — no such error
type exists anywhere in its error channel `PyErr`. -/
theorem analyze_frames_empty_cex :
    analyze_frames [] 16 (9/10) = .error .typeError ∧
      ∀ e : PyErr, e = .typeError ∨ e = .zeroDivisionError ∨ ∃ m, e = .runtimeError m := by
  refine ⟨rfl, fun e => ?_⟩
  cases e with
  | typeError => exact Or.inl rfl
  | runtimeError m => exact Or.inr (Or.inr ⟨m, rfl⟩)
  | zeroDivisionError => exact Or.inr (Or.inl rfl)

/-- C6 (amended): when a frame's width differs from the first frame's width,
`analyze_frames` fails while processing the first such frame — whatever frames
follow it — raising Python's builtin `RuntimeError` with the message
"Extracted frame widths vary; unexpected." (a generic exception carrying only a
message, not a dedicated `InconsistentWidthError` type); no result is returned,
and frame heights are never compared (they are unconstrained here). -/
theorem analyze_frames_width_mismatch (f0 : Frame) (fs1 : List Frame) (g : Frame)
    (fs2 : List Frame) (t p : ℚ)
    (h1 : ∀ f ∈ fs1, f.width = f0.width) (h2 : g.width ≠ f0.width) :
    analyze_frames (f0 :: (fs1 ++ g :: fs2)) t p =
      .error (.runtimeError "Extracted frame widths vary; unexpected.") := by
  rw [analyze_frames, analyzeGo_mismatch t f0.width fs1 g fs2 _ _ _ h1 h2]

/-- Witness for C6: first frame of width 2, then a frame of width 3. -/
theorem analyze_frames_width_mismatch_witness :
    analyze_frames [⟨2, 1, fun _ _ => 0⟩, ⟨3, 4, fun _ _ => 0⟩] 16 (9/10) =
      .error (.runtimeError "Extracted frame widths vary; unexpected.") :=
  analyze_frames_width_mismatch ⟨2, 1, fun _ _ => 0⟩ [] ⟨3, 4, fun _ _ => 0⟩ []
    16 (9/10) (by intro f hf; cases hf) (by decide)

/-- Counterexample to C6 as stated: at a concrete width mismatch the code's
failure is `PyErr.runtimeError` with a message — the embedding of Python's
builtin catch-all `RuntimeError` — not a dedicated `InconsistentWidthError`
type; callers can distinguish it from other `RuntimeError`s only by its
message string. -/
theorem analyze_frames_width_mismatch_cex :
    analyze_frames [⟨800, 1, fun _ _ => 0⟩, ⟨801, 1, fun _ _ => 0⟩] 16 (9/10) =
      .error (.runtimeError "Extracted frame widths vary; unexpected.") := by
  decide

/-- C7 (amended): `column_blackness` has no failure mode on zero-dimension
frames: it is a total (pure) function; on a zero-height frame every column mean
is undefined (NaN in NumPy) and every flag is `false`, and on a zero-width frame
both outputs are empty. -/
theorem column_blackness_degenerate (f : Frame) (t : ℚ) :
    (f.height = 0 →
      (column_blackness f t).1 = List.replicate f.width false ∧
      (column_blackness f t).2 = List.replicate f.width none) ∧
    (f.width = 0 → column_blackness f t = ([], [])) := by
  constructor
  · intro h0
    constructor
    · simp [column_blackness, colMean, h0, List.map_const']
    · simp [column_blackness, colMean, h0, List.map_const']
  · intro h0
    simp [column_blackness, h0]

/-- Witness for C7's amended statement at a zero-height and a zero-width frame. -/
theorem column_blackness_degenerate_witness :
    ((column_blackness ⟨2, 0, fun _ _ => 0⟩ 16).1 = List.replicate 2 false ∧
      (column_blackness ⟨2, 0, fun _ _ => 0⟩ 16).2 = List.replicate 2 none) ∧
    column_blackness ⟨0, 3, fun _ _ => 0⟩ 16 = ([], []) :=
  ⟨(column_blackness_degenerate ⟨2, 0, fun _ _ => 0⟩ 16).1 rfl,
   (column_blackness_degenerate ⟨0, 3, fun _ _ => 0⟩ 16).2 rfl⟩

/-- Counterexample to C7 as stated: on the concrete frame of width 2 and height
0 the function does not fail at all — it returns all-false flags and undefined
(NaN) means; no `InvalidFrameError` is raised, and none exists in the script. -/
theorem column_blackness_no_failure_cex :
    column_blackness ⟨2, 0, fun _ _ => 0⟩ 16 = ([false, false], [none, none]) := by
  decide

/-- C9: the per-column final decision used by `analyze_frames` is antitone in
`frame_pct`: for fixed counts and frame total, raising `frame_pct` can only turn
a decision from true to false, never from false to true. -/
theorem black_cols_antitone (counts : List ℕ) (n : ℕ) (p₁ p₂ : ℚ) (i : ℕ)
    (hp : p₁ ≤ p₂)
    (h1 : (counts.map (decideBlack p₁ n))[i]? = some false) :
    (counts.map (decideBlack p₂ n))[i]? = some false := by
  rw [List.getElem?_map] at h1 ⊢
  obtain ⟨c, hc, hfalse⟩ : ∃ c, counts[i]? = some c ∧ decideBlack p₁ n c = false := by
    cases hget : counts[i]? with
    | none => rw [hget] at h1; simp at h1
    | some c =>
      rw [hget] at h1
      simp only [Option.map_some'] at h1
      exact ⟨c, rfl, by injection h1⟩
  rw [hc]
  simp only [Option.map_some', Option.some.injEq]
  have hreq : requiredCount p₁ n ≤ requiredCount p₂ n :=
    Int.ceil_le_ceil (mul_le_mul_of_nonneg_right hp (by positivity))
  simp only [decideBlack, decide_eq_false_iff_not, not_le] at hfalse ⊢
  omega

/-- Witness for C9 at `counts = [1]`, `n = 1`, `frame_pct` raised from 2 to 3. -/
theorem black_cols_antitone_witness :
    (2 : ℚ) ≤ 3 ∧ ([1].map (decideBlack 3 1))[0]? = some false := by
  have h2 : requiredCount 2 1 = 2 := by
    rw [requiredCount]
    norm_num
  have h1 : ([1].map (decideBlack 2 1))[0]? = some false := by
    simp [decideBlack, h2]
  exact ⟨by norm_num, black_cols_antitone [1] 1 2 3 0 (by norm_num) h1⟩

end VideoPillarCrop
